import Mathlib

/-!
# Verification of the warp-mirror core pipeline

Shallow embedding of the enrichment-and-aggregation pipeline of
`src/services/api/warpley.py` (class `WarpcastAPI`) together with the
emotion-fallback behaviour of `src/services/nlp/nlp_processor.py`.

Modelling choices:
* Text is `List Char`; Python's `str.lower()` is `List.map Char.toLower`
  (the inputs of interest are ASCII, where the two agree).
* `re.findall(r"@([a-zA-Z0-9_.]+)", text)` is `findMentions`: a
  left-to-right scan that, at each `'@'`, captures the maximal run of
  characters from the class and resumes after it (non-overlapping
  matches, exactly the regex engine's behaviour on this pattern).
* Python dicts keyed by username are total/partial functions from
  `List Char`; `collections.defaultdict` is a total function whose
  initial value is the default.
* The three NLP calls in `parse_casts` are an `Oracle` of fallible
  functions (`Except Unit`); an uncaught Python exception is the
  `Except.error` branch propagating.
-/

namespace WarpMirror

/-- One character of the regex class `[a-zA-Z0-9_.]` (ASCII letters,
digits, underscore, period). -/
def mentionChar (c : Char) : Bool :=
  c.isAlpha || c.isDigit || c = '_' || c = '.'

/-- Fuelled scanner for `re.findall(r"@([a-zA-Z0-9_.]+)", text)`.
At an `'@'` the maximal run of `mentionChar`s after it is the captured
group when nonempty; scanning resumes after the run.  The fuel is only
a structural-termination device: `l.length` always suffices because
each step consumes at least one character. -/
def findMentionsF : Nat → List Char → List (List Char)
  | 0, _ => []
  | _, [] => []
  | fuel+1, c :: rest =>
    if c = '@' then
      let tok := rest.takeWhile mentionChar
      if tok = [] then findMentionsF fuel rest
      else tok :: findMentionsF fuel (rest.drop tok.length)
    else findMentionsF fuel rest

/-- `re.findall(r"@([a-zA-Z0-9_.]+)", text)` — the list of captured
mention usernames, in left-to-right discovery order. -/
def findMentions (l : List Char) : List (List Char) :=
  findMentionsF l.length l

/-- Python's substring test `pat in s`: some suffix of `s` has `pat`
as a prefix. -/
def containsSub (pat : List Char) : List Char → Bool
  | [] => pat.isPrefixOf []
  | c :: rest => pat.isPrefixOf (c :: rest) || containsSub pat rest

/-- `cast["author"]`: username, display name, avatar reference. -/
structure Author where
  username : List Char
  displayName : List Char
  profileImage : List Char
deriving DecidableEq

/-- `cast["engagement"]`: a map that may omit any of the four keys
read by `track_engagement` (Python's `.get(key, 0)` supplies 0). -/
structure Engagement where
  likes : Option Int
  recasts : Option Int
  replies : Option Int
  total : Option Int
deriving DecidableEq

/-- One raw feed item (a cast) as consumed by `parse_casts`. -/
structure RawItem where
  id : Nat
  author : Author
  text : List Char
  timestamp : Int
  engagement : Engagement
  embeds : List (List Char)
deriving DecidableEq

/-- The `parsed_cast` dict built in `parse_casts`: the raw fields plus
the enrichment results. -/
structure EnrichedRecord where
  id : Nat
  author : Author
  text : List Char
  timestamp : Int
  engagement : Engagement
  sentiment : List Char
  emotion : List Char
  topics : List (List Char)
  embeds : List (List Char)
deriving DecidableEq

/-- One entry of `self.user_database` (see `save_to_user_database`). -/
structure UserProfile where
  fid : Nat
  name : List Char
  display_name : List Char
  msg_count : Nat
  messages : List (List Char)
deriving DecidableEq

/-- One entry of `self.edge_database` (see `process_edge_relationships`). -/
structure Edge where
  timestamp : Int
  «from» : List Char
  «to» : List Char
  type : List Char
deriving DecidableEq

/-- One entry of `self.engagement_metrics`. -/
structure EngTotals where
  likes : Int
  recasts : Int
  replies : Int
  total : Int
deriving DecidableEq

/-- The mutable accumulator state of a `WarpcastAPI` object: the user
database, the edge database, and the engagement-metrics defaultdict. -/
structure State where
  user_database : List Char → Option UserProfile
  edge_database : List Edge
  engagement_metrics : List Char → EngTotals

/-- The default of `defaultdict(lambda: {"likes": 0, "recasts": 0,
"replies": 0, "total": 0})`. -/
def emptyTotals : EngTotals :=
  { likes := 0, recasts := 0, replies := 0, total := 0 }

/-- The state right after `WarpcastAPI.__init__`: empty user database,
empty edge list, all engagement counters lazily 0. -/
def initState : State :=
  { user_database := fun _ => none
    edge_database := []
    engagement_metrics := fun _ => emptyTotals }

def unknownT : List Char := "unknown".toList
def replyT : List Char := "reply".toList
def calloutT : List Char := "callout".toList
def mentionT : List Char := "mention".toList

/-- The profile created on first sighting of a username
(`save_to_user_database`, lines 72–79): note `fid` reuses the item id. -/
def freshProfile (cast : EnrichedRecord) : UserProfile :=
  { fid := cast.id
    name := cast.author.username
    display_name := cast.author.displayName
    msg_count := 0
    messages := [] }

/-- Append one message text to a profile and bump its count
(`save_to_user_database`, lines 81–82). -/
def appendMsg (p : UserProfile) (t : List Char) : UserProfile :=
  { p with messages := p.messages ++ [t], msg_count := p.msg_count + 1 }

/-- `WarpcastAPI.save_to_user_database`. -/
def save_to_user_database (cast : EnrichedRecord) (st : State) : State :=
  let username := cast.author.username
  let base :=
    match st.user_database username with
    | some p => p
    | none => freshProfile cast
  { st with
    user_database := fun u =>
      if u = username then some (appendMsg base cast.text) else st.user_database u }

/-- The per-mention classification of `process_edge_relationships`
(lines 91–96): `"reply"` when the text literally starts with
`"@" + mentioned_user`, else `"callout"` when the lower-cased text
contains `"callout"`, else `"mention"`. -/
def relationshipType (text mentioned_user : List Char) : List Char :=
  if List.isPrefixOf ('@' :: mentioned_user) text then replyT
  else if containsSub calloutT (text.map Char.toLower) then calloutT
  else mentionT

/-- One appended edge of `process_edge_relationships`. -/
def mkEdge (cast : EnrichedRecord) (mentioned_user : List Char) : Edge :=
  { timestamp := cast.timestamp
    «from» := cast.author.username
    «to» := mentioned_user
    type := relationshipType cast.text mentioned_user }

/-- All edges one record appends, in mention-discovery order. -/
def edgesOf (cast : EnrichedRecord) : List Edge :=
  (findMentions cast.text).map (mkEdge cast)

/-- `WarpcastAPI.process_edge_relationships`. -/
def process_edge_relationships (cast : EnrichedRecord) (st : State) : State :=
  { st with edge_database := st.edge_database ++ edgesOf cast }

/-- Add one record's engagement values (`.get(key, 0)`) to a totals
entry — the net effect of the `for key in [...]` loop. -/
def addEngagement (t : EngTotals) (e : Engagement) : EngTotals :=
  { likes := t.likes + e.likes.getD 0
    recasts := t.recasts + e.recasts.getD 0
    replies := t.replies + e.replies.getD 0
    total := t.total + e.total.getD 0 }

/-- `WarpcastAPI.track_engagement`. -/
def track_engagement (cast : EnrichedRecord) (st : State) : State :=
  let username := cast.author.username
  { st with
    engagement_metrics := fun u =>
      if u = username then addEngagement (st.engagement_metrics username) cast.engagement
      else st.engagement_metrics u }

/-- The three NLP calls of `parse_casts` as fallible functions.
`classifierRun` is the body of the `try` block in
`NLPProcessor.detect_emotion` (the transformer call plus the
`predictions[0][0]['label']` indexing); `sentiment` and `topics` are
`analyze_sentiment` and `extract_topics`, which have no exception
handler. -/
structure Oracle where
  sentiment : List Char → Except Unit (List Char)
  classifierRun : List Char → Except Unit (List Char)
  topics : List Char → Except Unit (List (List Char))

/-- `NLPProcessor.detect_emotion`: the `try/except` that substitutes
the sentinel `"unknown"` on any classifier failure. -/
def detect_emotion (O : Oracle) (text : List Char) : List Char :=
  match O.classifierRun text with
  | .ok label => label
  | .error _ => unknownT

/-- The body of the `parse_casts` loop before the accumulator calls:
run the three NLP steps in source order and build `parsed_cast`.
A sentiment or topics failure propagates; an emotion-classifier
failure is absorbed by `detect_emotion`. -/
def enrich (O : Oracle) (cast : RawItem) : Except Unit EnrichedRecord := do
  let s ← O.sentiment cast.text
  let emotion := detect_emotion O cast.text
  let tp ← O.topics cast.text
  Except.ok
    { id := cast.id
      author := cast.author
      text := cast.text
      timestamp := cast.timestamp
      engagement := cast.engagement
      sentiment := s
      emotion := emotion
      topics := tp
      embeds := cast.embeds }

/-- The fan-out of one parsed record to the three accumulators, in
source order (lines 62–64). -/
def pipelineStep (cast : EnrichedRecord) (st : State) : State :=
  track_engagement cast (process_edge_relationships cast (save_to_user_database cast st))

/-- `WarpcastAPI.parse_casts`: process the items in order; on an
unrecovered failure the loop halts, losing nothing already
accumulated, and the exception propagates (the `Except.error`
result). -/
def parse_casts (O : Oracle) :
    List RawItem → State → State × Except Unit (List EnrichedRecord)
  | [], st => (st, Except.ok [])
  | cast :: rest, st =>
    match enrich O cast with
    | .error e => (st, Except.error e)
    | .ok parsed =>
      match parse_casts O rest (pipelineStep parsed st) with
      | (stF, .ok ps) => (stF, Except.ok (parsed :: ps))
      | (stF, .error e) => (stF, Except.error e)

/-- An oracle built from total functions: the normal case in which no
NLP call raises. -/
def totalOracle (s e : List Char → List Char)
    (t : List Char → List (List Char)) : Oracle :=
  { sentiment := fun x => Except.ok (s x)
    classifierRun := fun x => Except.ok (e x)
    topics := fun x => Except.ok (t x) }

/-- What `enrich` yields under `totalOracle`. -/
def enrichT (s e : List Char → List Char) (t : List Char → List (List Char))
    (cast : RawItem) : EnrichedRecord :=
  { id := cast.id
    author := cast.author
    text := cast.text
    timestamp := cast.timestamp
    engagement := cast.engagement
    sentiment := s cast.text
    emotion := e cast.text
    topics := t cast.text
    embeds := cast.embeds }

/-- A complete pipeline run that does not fail: the final accumulator
state of `parse_casts` under a total oracle. -/
def runPipeline (s e : List Char → List Char) (t : List Char → List (List Char))
    (items : List RawItem) (st : State) : State :=
  (parse_casts (totalOracle s e t) items st).1

/-- The items of a run authored by a given username, in input order. -/
def byUser (u : List Char) (items : List RawItem) : List RawItem :=
  items.filter (fun c => decide (c.author.username = u))

/-- The edges one raw item contributes (its enrichment fields are
never read by `process_edge_relationships`). -/
def rawEdges (c : RawItem) : List Edge :=
  (findMentions c.text).map (fun m =>
    { timestamp := c.timestamp
      «from» := c.author.username
      «to» := m
      type := relationshipType c.text m })

end WarpMirror

namespace WarpMirror

/-! ## Basic unfolding lemmas for a completed run -/

theorem enrich_totalOracle (s e : List Char → List Char)
    (t : List Char → List (List Char)) (cast : RawItem) :
    enrich (totalOracle s e t) cast = Except.ok (enrichT s e t cast) := rfl

theorem runPipeline_nil (s e : List Char → List Char)
    (t : List Char → List (List Char)) (st : State) :
    runPipeline s e t [] st = st := rfl

theorem runPipeline_cons (s e : List Char → List Char)
    (t : List Char → List (List Char)) (c : RawItem) (cs : List RawItem) (st : State) :
    runPipeline s e t (c :: cs) st
      = runPipeline s e t cs (pipelineStep (enrichT s e t c) st) := by
  show (parse_casts _ (c :: cs) st).1 = (parse_casts _ cs _).1
  rw [parse_casts, enrich_totalOracle]
  rcases h : parse_casts (totalOracle s e t) cs (pipelineStep (enrichT s e t c) st)
    with ⟨stF, res⟩
  cases res <;> simp [h]

theorem step_user_database (cast : EnrichedRecord) (st : State) (u : List Char) :
    (pipelineStep cast st).user_database u =
      if u = cast.author.username then
        some (appendMsg ((st.user_database cast.author.username).getD (freshProfile cast))
          cast.text)
      else st.user_database u := by
  cases h : st.user_database cast.author.username <;>
    simp [pipelineStep, track_engagement, process_edge_relationships,
      save_to_user_database, h]

theorem step_edge_database (cast : EnrichedRecord) (st : State) :
    (pipelineStep cast st).edge_database = st.edge_database ++ edgesOf cast := rfl

theorem step_engagement_metrics (cast : EnrichedRecord) (st : State) (u : List Char) :
    (pipelineStep cast st).engagement_metrics u =
      if u = cast.author.username then
        addEngagement (st.engagement_metrics cast.author.username) cast.engagement
      else st.engagement_metrics u := rfl

theorem edgesOf_enrichT (s e : List Char → List Char)
    (t : List Char → List (List Char)) (c : RawItem) :
    edgesOf (enrichT s e t c) = rawEdges c := rfl

theorem byUser_cons (u : List Char) (c : RawItem) (items : List RawItem) :
    byUser u (c :: items)
      = if c.author.username = u then c :: byUser u items else byUser u items := by
  simp only [byUser, List.filter_cons]
  by_cases h : c.author.username = u
  · rw [if_pos (decide_eq_true h), if_pos h]
  · rw [if_neg (fun hh => h (of_decide_eq_true hh)), if_neg h]

theorem enrichT_author (s e : List Char → List Char)
    (t : List Char → List (List Char)) (c : RawItem) :
    (enrichT s e t c).author = c.author := rfl

theorem enrichT_text (s e : List Char → List Char)
    (t : List Char → List (List Char)) (c : RawItem) :
    (enrichT s e t c).text = c.text := rfl

theorem enrichT_engagement (s e : List Char → List Char)
    (t : List Char → List (List Char)) (c : RawItem) :
    (enrichT s e t c).engagement = c.engagement := rfl

/-! ## The user database after a run -/

/-- The profile stored under `u` after the items of `l` (all authored
by `u`) have been submitted on top of a previous entry `old`. -/
def profileAfter (old : Option UserProfile) (u : List Char) (l : List RawItem) :
    Option UserProfile :=
  match old, l with
  | some p, l => some { p with msg_count := p.msg_count + l.length,
                               messages := p.messages ++ l.map RawItem.text }
  | none, [] => none
  | none, c0 :: l => some { fid := c0.id, name := u,
                            display_name := c0.author.displayName,
                            msg_count := l.length + 1,
                            messages := c0.text :: l.map RawItem.text }

theorem profileAfter_cons (old : Option UserProfile) (u : List Char) (c : RawItem)
    (l : List RawItem) (hc : c.author.username = u) :
    profileAfter old u (c :: l)
      = profileAfter (some (appendMsg (old.getD
          { fid := c.id, name := c.author.username,
            display_name := c.author.displayName,
            msg_count := 0, messages := [] }) c.text)) u l := by
  cases old with
  | none =>
    subst hc
    simp only [profileAfter, Option.getD, appendMsg]
    simp [UserProfile.mk.injEq]
    omega
  | some p =>
    simp only [profileAfter, Option.getD, appendMsg]
    simp [UserProfile.mk.injEq]
    omega

theorem run_user_database (s e : List Char → List Char)
    (t : List Char → List (List Char)) (items : List RawItem) (st : State)
    (u : List Char) :
    (runPipeline s e t items st).user_database u
      = profileAfter (st.user_database u) u (byUser u items) := by
  induction items generalizing st with
  | nil =>
    rw [runPipeline_nil]
    show st.user_database u = profileAfter (st.user_database u) u (byUser u [])
    cases h : st.user_database u <;> simp [byUser, profileAfter]
  | cons c cs ih =>
    rw [runPipeline_cons, ih, step_user_database, byUser_cons]
    simp only [enrichT_author, enrichT_text]
    by_cases hc : c.author.username = u
    · rw [if_pos hc, if_pos hc.symm, profileAfter_cons _ _ _ _ hc]
      have hf : freshProfile (enrichT s e t c)
          = ⟨c.id, c.author.username, c.author.displayName, 0, []⟩ := rfl
      rw [hf, hc]
    · rw [if_neg hc, if_neg (fun h => hc h.symm)]

/-! ## The edge database after a run -/

theorem run_edge_database (s e : List Char → List Char)
    (t : List Char → List (List Char)) (items : List RawItem) (st : State) :
    (runPipeline s e t items st).edge_database
      = st.edge_database ++ items.flatMap rawEdges := by
  induction items generalizing st with
  | nil => simp [runPipeline_nil]
  | cons c cs ih =>
    rw [runPipeline_cons, ih]
    show (pipelineStep (enrichT s e t c) st).edge_database ++ _ = _
    rw [step_edge_database, edgesOf_enrichT, List.flatMap_cons, List.append_assoc]

/-! ## The engagement metrics after a run -/

/-- The run total one engagement key accumulates for one user:
the sum of that key's `.get(key, 0)` values over the user's items. -/
def sumKey (f : Engagement → Option Int) (u : List Char) (items : List RawItem) : Int :=
  ((byUser u items).map (fun c => (f c.engagement).getD 0)).sum

theorem sumKey_cons (f : Engagement → Option Int) (u : List Char) (c : RawItem)
    (items : List RawItem) :
    sumKey f u (c :: items)
      = (if c.author.username = u then (f c.engagement).getD 0 else 0)
        + sumKey f u items := by
  rw [sumKey, byUser_cons]
  by_cases h : c.author.username = u
  · rw [if_pos h, if_pos h]; simp [sumKey]
  · rw [if_neg h, if_neg h]; simp [sumKey]

theorem run_engagement_metrics (s e : List Char → List Char)
    (t : List Char → List (List Char)) (items : List RawItem) (st : State)
    (u : List Char) :
    (runPipeline s e t items st).engagement_metrics u
      = { likes := (st.engagement_metrics u).likes + sumKey Engagement.likes u items
          recasts := (st.engagement_metrics u).recasts + sumKey Engagement.recasts u items
          replies := (st.engagement_metrics u).replies + sumKey Engagement.replies u items
          total := (st.engagement_metrics u).total + sumKey Engagement.total u items } := by
  induction items generalizing st with
  | nil =>
    rw [runPipeline_nil]
    simp [sumKey, byUser]
  | cons c cs ih =>
    rw [runPipeline_cons, ih, step_engagement_metrics]
    simp only [enrichT_author, enrichT_engagement, sumKey_cons]
    by_cases hc : c.author.username = u
    · simp [hc, addEngagement, EngTotals.mk.injEq, add_assoc]
    · have hc' : ¬(u = c.author.username) := fun h => hc h.symm
      simp [hc, hc']

/-! ## Structure of the mention scan -/

theorem findMentionsF_sound (fuel : Nat) (l m : List Char)
    (h : m ∈ findMentionsF fuel l) :
    m ≠ [] ∧ ∀ c ∈ m, mentionChar c = true := by
  induction fuel generalizing l with
  | zero => simp [findMentionsF] at h
  | succ fuel ih =>
    cases l with
    | nil => simp [findMentionsF] at h
    | cons c rest =>
      simp only [findMentionsF] at h
      split at h
      · split at h
        · exact ih _ h
        · rcases List.mem_cons.mp h with rfl | h'
          · rename_i htok
            exact ⟨htok, fun x hx => List.mem_takeWhile_imp hx⟩
          · exact ih _ h'
      · exact ih _ h

theorem findMentions_sound (l m : List Char) (h : m ∈ findMentions l) :
    m ≠ [] ∧ ∀ c ∈ m, mentionChar c = true :=
  findMentionsF_sound _ _ _ h

theorem findMentions_cons_at (rest : List Char)
    (hne : rest.takeWhile mentionChar ≠ []) :
    findMentions ('@' :: rest)
      = rest.takeWhile mentionChar
        :: findMentionsF rest.length (rest.drop (rest.takeWhile mentionChar).length) := by
  show findMentionsF ('@' :: rest).length ('@' :: rest) = _
  rw [List.length_cons]
  simp only [findMentionsF, if_pos rfl, if_neg hne]
  simp

/-! ## Concrete sample inputs -/

def aliceA : Author :=
  { username := "alice".toList, displayName := "Alice".toList,
    profileImage := "img-a".toList }

def bobA : Author :=
  { username := "bob".toList, displayName := "Bob".toList,
    profileImage := "img-b".toList }

/-- Engagement map omitting the `"replies"` key. -/
def engA : Engagement :=
  { likes := some 3, recasts := some 1, replies := none, total := some 4 }

def engB : Engagement :=
  { likes := some 5, recasts := some 2, replies := some 7, total := some 14 }

/-- Trivial enrichment functions for sample complete runs. -/
def sNull : List Char → List Char := fun _ => []

def tNull : List Char → List (List Char) := fun _ => []

def itemA : RawItem :=
  { id := 1, author := aliceA, text := "hello world".toList,
    timestamp := 100, engagement := engA, embeds := [] }

def itemB : RawItem :=
  { id := 2, author := aliceA, text := "second post".toList,
    timestamp := 200, engagement := engB, embeds := [] }

def itemC : RawItem :=
  { id := 3, author := bobA, text := "just saying hi @carol".toList,
    timestamp := 300, engagement := engA, embeds := [] }

def itemReply : RawItem :=
  { id := 20, author := aliceA, text := "@bob hello callout".toList,
    timestamp := 400, engagement := engA, embeds := [] }

def itemShout : RawItem :=
  { id := 21, author := aliceA,
    text := "hi @alice and @bob, shoutout callout".toList,
    timestamp := 500, engagement := engA, embeds := [] }

def itemDup : RawItem :=
  { id := 22, author := aliceA, text := "@bob hi @bob callout".toList,
    timestamp := 600, engagement := engA, embeds := [] }

def itemPre : RawItem :=
  { id := 23, author := aliceA, text := "@bob.x hi @bob".toList,
    timestamp := 700, engagement := engA, embeds := [] }

def castA : EnrichedRecord := enrichT sNull sNull tNull itemA

def castB : EnrichedRecord := enrichT sNull sNull tNull itemB

def castReplyE : EnrichedRecord := enrichT sNull sNull tNull itemReply

def castDupE : EnrichedRecord := enrichT sNull sNull tNull itemDup

/-- The profile of `"alice"` after the first sample item. -/
def profA1 : UserProfile :=
  { fid := 1, name := "alice".toList, display_name := "Alice".toList,
    msg_count := 1, messages := ["hello world".toList] }

/-- The profile of `"alice"` after `itemA` and `itemB`. -/
def profA2 : UserProfile :=
  { fid := 1, name := "alice".toList, display_name := "Alice".toList,
    msg_count := 2, messages := ["hello world".toList, "second post".toList] }

/-! ## Claim C1 -/

/-- Claim C1: after a completed pipeline run, every username present in
the final user registry has `msg_count` equal to the number of processed
items whose author's username is that username, `messages` exactly the
texts of those items in arrival order, and hence `msg_count` equal to
the length of `messages`. -/
theorem claim_C1_registry_counts (s e : List Char → List Char)
    (t : List Char → List (List Char)) (items : List RawItem) (u : List Char)
    (p : UserProfile)
    (h : (runPipeline s e t items initState).user_database u = some p) :
    p.msg_count = (byUser u items).length
    ∧ p.messages = (byUser u items).map RawItem.text
    ∧ p.msg_count = p.messages.length := by
  rw [run_user_database] at h
  cases hl : byUser u items with
  | nil => rw [hl] at h; exact absurd h (by simp [initState, profileAfter])
  | cons c0 l =>
    rw [hl] at h
    have hv : profileAfter (initState.user_database u) u (c0 :: l)
        = some ⟨c0.id, u, c0.author.displayName, l.length + 1,
            c0.text :: l.map RawItem.text⟩ := rfl
    rw [hv] at h
    injection h with h
    subst h
    simp

theorem claim_C1_registry_counts_witness :
    (runPipeline sNull sNull tNull [itemA, itemC, itemB] initState).user_database
        "alice".toList = some profA2
    ∧ (profA2.msg_count = (byUser "alice".toList [itemA, itemC, itemB]).length
       ∧ profA2.messages = (byUser "alice".toList [itemA, itemC, itemB]).map RawItem.text
       ∧ profA2.msg_count = profA2.messages.length) := by
  have h : (runPipeline sNull sNull tNull [itemA, itemC, itemB] initState).user_database
      "alice".toList = some profA2 := by decide
  exact ⟨h, claim_C1_registry_counts sNull sNull tNull _ _ _ h⟩

/-! ## Claim C8 -/

/-- Claim C8: a user's profile identifier (`fid`) and display name come
from the first processed record by that username — the identifier being
that record's item id — and are never changed afterwards; a later record
from the same username only appends its text and increments `msg_count`,
and records by other usernames leave the profile untouched. -/
theorem claim_C8_profile_frame (s e : List Char → List Char)
    (t : List Char → List (List Char)) (items : List RawItem) (u : List Char) :
    ((runPipeline s e t items initState).user_database u
      = match byUser u items with
        | [] => none
        | c0 :: l => some { fid := c0.id, name := u,
                            display_name := c0.author.displayName,
                            msg_count := l.length + 1,
                            messages := c0.text :: l.map RawItem.text })
    ∧ (∀ (cast : EnrichedRecord) (st : State) (v : List Char),
        v ≠ cast.author.username →
        (pipelineStep cast st).user_database v = st.user_database v)
    ∧ (∀ (cast : EnrichedRecord) (st : State) (p : UserProfile),
        st.user_database cast.author.username = some p →
        (pipelineStep cast st).user_database cast.author.username
          = some { p with messages := p.messages ++ [cast.text],
                          msg_count := p.msg_count + 1 }) := by
  refine ⟨?_, ?_, ?_⟩
  · rw [run_user_database]
    cases byUser u items <;> rfl
  · intro cast st v hv
    rw [step_user_database, if_neg hv]
  · intro cast st p hp
    rw [step_user_database, if_pos rfl, hp]
    rfl

theorem claim_C8_profile_frame_witness :
    ((runPipeline sNull sNull tNull [itemA, itemC, itemB] initState).user_database
        "alice".toList
      = match byUser "alice".toList [itemA, itemC, itemB] with
        | [] => none
        | c0 :: l => some { fid := c0.id, name := "alice".toList,
                            display_name := c0.author.displayName,
                            msg_count := l.length + 1,
                            messages := c0.text :: l.map RawItem.text })
    ∧ (pipelineStep castA initState).user_database "bob".toList
        = initState.user_database "bob".toList
    ∧ (pipelineStep castB (pipelineStep castA initState)).user_database
        castB.author.username
        = some { profA1 with messages := profA1.messages ++ [castB.text],
                             msg_count := profA1.msg_count + 1 } :=
  ⟨(claim_C8_profile_frame sNull sNull tNull [itemA, itemC, itemB] "alice".toList).1,
   (claim_C8_profile_frame sNull sNull tNull [] []).2.1 castA initState
     "bob".toList (by decide),
   (claim_C8_profile_frame sNull sNull tNull [] []).2.2 castB
     (pipelineStep castA initState) profA1 (by decide)⟩

/-! ## Claim C9 -/

theorem save_db_author (cast : EnrichedRecord) (st : State) :
    (save_to_user_database cast st).user_database cast.author.username
      = some (appendMsg
          ((st.user_database cast.author.username).getD (freshProfile cast))
          cast.text) := by
  cases h : st.user_database cast.author.username <;>
    simp [save_to_user_database, h]

/-- Claim C9: the registry builder is not idempotent — submitting the
same record twice appends its text twice and double-counts, so applying
`save_to_user_database` twice never equals applying it once; from an
empty registry the double submission yields `msg_count` 2 and the text
stored twice. -/
theorem claim_C9_not_idempotent (cast : EnrichedRecord) (st : State) :
    ((save_to_user_database cast (save_to_user_database cast st)).user_database
        cast.author.username
      = ((save_to_user_database cast st).user_database cast.author.username).map
          (fun p => appendMsg p cast.text))
    ∧ save_to_user_database cast (save_to_user_database cast st)
        ≠ save_to_user_database cast st
    ∧ (save_to_user_database cast (save_to_user_database cast initState)).user_database
        cast.author.username
      = some { fid := cast.id, name := cast.author.username,
               display_name := cast.author.displayName,
               msg_count := 2, messages := [cast.text, cast.text] } := by
  have h1 := save_db_author cast st
  have h2 := save_db_author cast (save_to_user_database cast st)
  refine ⟨?_, ?_, ?_⟩
  · rw [h2, h1]
    rfl
  · intro he
    have hfu := congrFun (congrArg State.user_database he) cast.author.username
    rw [h2, h1] at hfu
    have hcnt := congrArg (fun o => Option.map UserProfile.msg_count o) hfu
    simp [appendMsg] at hcnt
  · have h0 := save_db_author cast (save_to_user_database cast initState)
    rw [save_db_author cast initState] at h0
    rw [h0]
    rfl

/-! ## Claim C10 -/

/-- Claim C10: the reply classification is a raw string-prefix test, not
a leading-token equality test — in `"@bob.x hi @bob"` the later mention
`@bob` is a character prefix of the text, so its edge is typed
`"reply"` even though the text's leading mention token is the longer
`bob.x`. -/
theorem claim_C10_raw_string_prefix_reply :
    findMentions itemPre.text = ["bob.x".toList, "bob".toList]
    ∧ "bob.x".toList ≠ "bob".toList
    ∧ List.isPrefixOf ('@' :: "bob".toList) itemPre.text = true
    ∧ (rawEdges itemPre).map Edge.type = [replyT, replyT]
    ∧ (rawEdges itemPre).map Edge.«to» = ["bob.x".toList, "bob".toList] := by
  decide

/-! ## Claim C2 -/

/-- Claim C2: an item whose text contains exactly `k` occurrences of the
mention pattern contributes exactly `k` edges, each with `from` equal to
the item's author username and `to` the matched token (duplicates give
separate edges), in left-to-right discovery order; across items the run
appends edge blocks in input-item order. -/
theorem claim_C2_mention_edges (s e : List Char → List Char)
    (t : List Char → List (List Char)) (pre : List RawItem) (c : RawItem)
    (post : List RawItem) (k : Nat)
    (hk : (findMentions c.text).length = k) :
    (runPipeline s e t (pre ++ c :: post) initState).edge_database
      = pre.flatMap rawEdges ++ (rawEdges c ++ post.flatMap rawEdges)
    ∧ (rawEdges c).length = k
    ∧ (rawEdges c).map Edge.«to» = findMentions c.text
    ∧ ∀ ed ∈ rawEdges c, ed.«from» = c.author.username := by
  refine ⟨?_, ?_, ?_, ?_⟩
  · rw [run_edge_database]
    show initState.edge_database ++ _ = _
    simp [initState]
  · rw [← hk, rawEdges, List.length_map]
  · rw [rawEdges, List.map_map]
    exact List.map_id _
  · intro ed hed
    obtain ⟨m, hm, rfl⟩ := List.mem_map.mp hed
    rfl

theorem claim_C2_mention_edges_witness :
    ((runPipeline sNull sNull tNull ([itemA] ++ itemPre :: [itemC]) initState).edge_database
      = [itemA].flatMap rawEdges ++ (rawEdges itemPre ++ [itemC].flatMap rawEdges))
    ∧ (rawEdges itemPre).length = 2
    ∧ (rawEdges itemPre).map Edge.«to» = findMentions itemPre.text
    ∧ ∀ ed ∈ rawEdges itemPre, ed.«from» = itemPre.author.username :=
  claim_C2_mention_edges sNull sNull tNull [itemA] itemPre [itemC] 2 (by decide)

/-! ## Claim C5 -/

/-- Claim C5: for every username, each of the four final engagement
counters of a run equals the sum over that user's items of the item's
`.get(key, 0)` value — an absent key contributes 0 rather than raising;
in the sample run, two items by `"alice"` with likes 3 and 5 make the
likes total exactly 8, and the absent `"replies"` key of the first item
contributes 0. -/
theorem claim_C5_engagement_totals :
    (∀ (s e : List Char → List Char) (t : List Char → List (List Char))
       (items : List RawItem) (u : List Char),
       (runPipeline s e t items initState).engagement_metrics u
         = { likes := sumKey Engagement.likes u items
             recasts := sumKey Engagement.recasts u items
             replies := sumKey Engagement.replies u items
             total := sumKey Engagement.total u items })
    ∧ (runPipeline sNull sNull tNull [itemA, itemB] initState).engagement_metrics
        "alice".toList
      = { likes := 8, recasts := 3, replies := 7, total := 18 } := by
  constructor
  · intro s e t items u
    rw [run_engagement_metrics]
    show ({ likes := emptyTotals.likes + _, recasts := emptyTotals.recasts + _,
            replies := emptyTotals.replies + _,
            total := emptyTotals.total + _ } : EngTotals) = _
    simp [emptyTotals]
  · decide

/-! ## Claim C7 -/

theorem sumKey_append (f : Engagement → Option Int) (u : List Char)
    (pre post : List RawItem) :
    sumKey f u (pre ++ post) = sumKey f u pre + sumKey f u post := by
  simp [sumKey, byUser, List.filter_append]

theorem sumKey_nonneg (f : Engagement → Option Int) (u : List Char)
    (l : List RawItem) (h : ∀ c ∈ l, 0 ≤ (f c.engagement).getD 0) :
    0 ≤ sumKey f u l := by
  apply List.sum_nonneg
  intro x hx
  obtain ⟨c, hc, rfl⟩ := List.mem_map.mp hx
  exact h c (List.mem_filter.mp hc).1

/-- Claim C7: a fresh run starts every engagement counter at zero (the
defaultdict lazily supplies all-zero totals for any username), and when
each item's engagement values are non-negative, each of the four
counters of any username is non-decreasing as successive items are
processed: its value after a prefix of the input is at most its value
after the whole input. -/
theorem claim_C7_monotone_counters (s e : List Char → List Char)
    (t : List Char → List (List Char)) (pre post : List RawItem) (u : List Char)
    (h : ∀ c ∈ pre ++ post,
        0 ≤ (c.engagement.likes.getD 0) ∧ 0 ≤ (c.engagement.recasts.getD 0)
        ∧ 0 ≤ (c.engagement.replies.getD 0) ∧ 0 ≤ (c.engagement.total.getD 0)) :
    initState.engagement_metrics u
      = { likes := 0, recasts := 0, replies := 0, total := 0 }
    ∧ ((runPipeline s e t pre initState).engagement_metrics u).likes
        ≤ ((runPipeline s e t (pre ++ post) initState).engagement_metrics u).likes
    ∧ ((runPipeline s e t pre initState).engagement_metrics u).recasts
        ≤ ((runPipeline s e t (pre ++ post) initState).engagement_metrics u).recasts
    ∧ ((runPipeline s e t pre initState).engagement_metrics u).replies
        ≤ ((runPipeline s e t (pre ++ post) initState).engagement_metrics u).replies
    ∧ ((runPipeline s e t pre initState).engagement_metrics u).total
        ≤ ((runPipeline s e t (pre ++ post) initState).engagement_metrics u).total := by
  have hpost : ∀ c ∈ post,
      0 ≤ (c.engagement.likes.getD 0) ∧ 0 ≤ (c.engagement.recasts.getD 0)
      ∧ 0 ≤ (c.engagement.replies.getD 0) ∧ 0 ≤ (c.engagement.total.getD 0) :=
    fun c hc => h c (List.mem_append_right pre hc)
  have hL := sumKey_nonneg Engagement.likes u post (fun c hc => (hpost c hc).1)
  have hR := sumKey_nonneg Engagement.recasts u post (fun c hc => (hpost c hc).2.1)
  have hP := sumKey_nonneg Engagement.replies u post (fun c hc => (hpost c hc).2.2.1)
  have hT := sumKey_nonneg Engagement.total u post (fun c hc => (hpost c hc).2.2.2)
  refine ⟨rfl, ?_, ?_, ?_, ?_⟩ <;>
    rw [run_engagement_metrics, run_engagement_metrics] <;>
    simp [sumKey_append] <;> omega

theorem claim_C7_monotone_counters_witness :
    initState.engagement_metrics "alice".toList
      = { likes := 0, recasts := 0, replies := 0, total := 0 }
    ∧ ((runPipeline sNull sNull tNull [itemA] initState).engagement_metrics
          "alice".toList).likes
        ≤ ((runPipeline sNull sNull tNull ([itemA] ++ [itemB]) initState).engagement_metrics
          "alice".toList).likes
    ∧ ((runPipeline sNull sNull tNull [itemA] initState).engagement_metrics
          "alice".toList).recasts
        ≤ ((runPipeline sNull sNull tNull ([itemA] ++ [itemB]) initState).engagement_metrics
          "alice".toList).recasts
    ∧ ((runPipeline sNull sNull tNull [itemA] initState).engagement_metrics
          "alice".toList).replies
        ≤ ((runPipeline sNull sNull tNull ([itemA] ++ [itemB]) initState).engagement_metrics
          "alice".toList).replies
    ∧ ((runPipeline sNull sNull tNull [itemA] initState).engagement_metrics
          "alice".toList).total
        ≤ ((runPipeline sNull sNull tNull ([itemA] ++ [itemB]) initState).engagement_metrics
          "alice".toList).total :=
  claim_C7_monotone_counters sNull sNull tNull [itemA] [itemB] "alice".toList
    (by decide)

/-! ## Claim C3 -/

theorem mkEdge_to (cast : EnrichedRecord) (m : List Char) :
    (mkEdge cast m).«to» = m := rfl

theorem mkEdge_type (cast : EnrichedRecord) (m : List Char) :
    (mkEdge cast m).type = relationshipType cast.text m := rfl

/-- Claim C3: every produced edge is typed `"reply"` when the text
starts with `"@"` followed by that edge's mentioned username, else
`"callout"` when the text contains the case-insensitive substring
`"callout"`, else `"mention"`; concretely, for text
`"@bob hello callout"` the `@bob` edge is a `"reply"` (reply takes
precedence over callout), and for
`"hi @alice and @bob, shoutout callout"` both edges are `"callout"`. -/
theorem claim_C3_edge_classification :
    (∀ (cast : EnrichedRecord) (ed : Edge), ed ∈ edgesOf cast →
        ed.type = if List.isPrefixOf ('@' :: ed.«to») cast.text then replyT
          else if containsSub calloutT (cast.text.map Char.toLower) then calloutT
          else mentionT)
    ∧ rawEdges itemReply
        = [{ timestamp := itemReply.timestamp, «from» := "alice".toList,
             «to» := "bob".toList, type := replyT }]
    ∧ (rawEdges itemShout).map Edge.type = [calloutT, calloutT]
    ∧ (rawEdges itemShout).map Edge.«to» = ["alice".toList, "bob".toList] := by
  refine ⟨?_, by decide, by decide, by decide⟩
  intro cast ed hed
  obtain ⟨m, hm, rfl⟩ := List.mem_map.mp hed
  rw [mkEdge_type, mkEdge_to, relationshipType]

theorem claim_C3_edge_classification_witness :
    (mkEdge castReplyE "bob".toList).type
      = if List.isPrefixOf ('@' :: (mkEdge castReplyE "bob".toList).«to»)
            castReplyE.text then replyT
        else if containsSub calloutT (castReplyE.text.map Char.toLower) then calloutT
        else mentionT :=
  claim_C3_edge_classification.1 castReplyE (mkEdge castReplyE "bob".toList)
    (by decide)

/-! ## Claim C4 -/

/-- Counterexample to claim C4 as stated: in `"@bob hi @bob callout"`
the text contains `"callout"` and starts with its own mention token
`@bob`, yet the SECOND edge is also classified `"reply"` (its
`"@bob"` is a character prefix of the text), not `"callout"` as the
claim requires for every edge after the first. -/
theorem claim_C4_counterexample :
    containsSub calloutT (itemDup.text.map Char.toLower) = true
    ∧ findMentions itemDup.text = ["bob".toList, "bob".toList]
    ∧ List.isPrefixOf ('@' :: "bob".toList) itemDup.text = true
    ∧ (rawEdges itemDup).map Edge.type = [replyT, replyT]
    ∧ replyT ≠ calloutT := by
  decide

/-- Claim C4 (amended): for an item whose text contains `"callout"`,
each produced edge is classified `"reply"` exactly when `"@"` followed
by its own mentioned username is a character prefix of the text, and
`"callout"` otherwise; when the text starts with one of its mention
tokens the first edge is always among the `"reply"` ones, but later
mentions whose `"@"`-token is also a prefix of the text (such as
duplicates of the leading mention) are classified `"reply"` as well,
not `"callout"`. -/
theorem claim_C4_amended (cast : EnrichedRecord)
    (hcall : containsSub calloutT (cast.text.map Char.toLower) = true) :
    (∀ ed ∈ edgesOf cast,
        ed.type = if List.isPrefixOf ('@' :: ed.«to») cast.text then replyT
          else calloutT)
    ∧ ((∃ m ∈ findMentions cast.text,
          List.isPrefixOf ('@' :: m) cast.text = true) →
        ∃ ed tl, edgesOf cast = ed :: tl ∧ ed.type = replyT) := by
  constructor
  · intro ed hed
    obtain ⟨m, hm, rfl⟩ := List.mem_map.mp hed
    rw [mkEdge_type, mkEdge_to, relationshipType]
    by_cases hp : List.isPrefixOf ('@' :: m) cast.text = true
    · rw [if_pos hp, if_pos hp]
    · rw [if_neg hp, if_neg hp, if_pos hcall]
  · rintro ⟨m, hm, hpre⟩
    obtain ⟨hne, hchars⟩ := findMentions_sound _ _ hm
    obtain ⟨t', ht⟩ := List.isPrefixOf_iff_prefix.mp hpre
    cases m with
    | nil => exact absurd rfl hne
    | cons c0 m' =>
      have htext : cast.text = '@' :: (c0 :: (m' ++ t')) := by
        rw [← ht]; rfl
      have hc0 : mentionChar c0 = true := hchars c0 (by simp)
      have htw : (c0 :: (m' ++ t')).takeWhile mentionChar ≠ [] := by
        simp [List.takeWhile_cons, hc0]
      have hfm := findMentions_cons_at (c0 :: (m' ++ t')) htw
      refine ⟨mkEdge cast ((c0 :: (m' ++ t')).takeWhile mentionChar),
        (findMentionsF (c0 :: (m' ++ t')).length
          ((c0 :: (m' ++ t')).drop
            ((c0 :: (m' ++ t')).takeWhile mentionChar).length)).map (mkEdge cast),
        ?_, ?_⟩
      · rw [edgesOf, htext, hfm, List.map_cons]
      · have hpfx : ('@' :: (c0 :: (m' ++ t')).takeWhile mentionChar) <+: cast.text := by
          obtain ⟨r2, hr2⟩ := List.takeWhile_prefix (l := c0 :: (m' ++ t'))
            (p := mentionChar)
          refine ⟨r2, ?_⟩
          rw [htext, List.cons_append, hr2]
        rw [mkEdge_type, relationshipType,
          if_pos (List.isPrefixOf_iff_prefix.mpr hpfx)]

theorem claim_C4_amended_witness :
    containsSub calloutT (castDupE.text.map Char.toLower) = true
    ∧ ((∀ ed ∈ edgesOf castDupE,
          ed.type = if List.isPrefixOf ('@' :: ed.«to») castDupE.text then replyT
            else calloutT)
       ∧ ((∃ m ∈ findMentions castDupE.text,
             List.isPrefixOf ('@' :: m) castDupE.text = true) →
           ∃ ed tl, edgesOf castDupE = ed :: tl ∧ ed.type = replyT)) :=
  ⟨by decide, claim_C4_amended castDupE (by decide)⟩

/-! ## Claim C6 -/

theorem enrich_eq_ok (O : Oracle) (cast : RawItem) (v : List Char)
    (tv : List (List Char)) (hso : O.sentiment cast.text = Except.ok v)
    (hto : O.topics cast.text = Except.ok tv) :
    enrich O cast = Except.ok
      { id := cast.id, author := cast.author, text := cast.text,
        timestamp := cast.timestamp, engagement := cast.engagement,
        sentiment := v, emotion := detect_emotion O cast.text,
        topics := tv, embeds := cast.embeds } := by
  rw [enrich, hso, hto]
  rfl

theorem enrich_error_sentiment (O : Oracle) (cast : RawItem)
    (h : O.sentiment cast.text = Except.error ()) :
    enrich O cast = Except.error () := by
  rw [enrich, h]
  rfl

theorem enrich_error_topics (O : Oracle) (cast : RawItem) (v : List Char)
    (hs : O.sentiment cast.text = Except.ok v)
    (h : O.topics cast.text = Except.error ()) :
    enrich O cast = Except.error () := by
  rw [enrich, hs, h]
  rfl

theorem parse_casts_error_head (O : Oracle) (cast : RawItem)
    (rest : List RawItem) (st : State) (h : enrich O cast = Except.error ()) :
    parse_casts O (cast :: rest) st = (st, Except.error ()) := by
  rw [parse_casts, h]

theorem parse_casts_cons_ok (O : Oracle) (cast : RawItem) (rest : List RawItem)
    (st : State) (parsed : EnrichedRecord) (h : enrich O cast = Except.ok parsed) :
    parse_casts O (cast :: rest) st
      = match parse_casts O rest (pipelineStep parsed st) with
        | (stF, .ok ps) => (stF, Except.ok (parsed :: ps))
        | (stF, .error e) => (stF, Except.error e) := by
  rw [parse_casts, h]

theorem match_snd_isOk (parsed : EnrichedRecord)
    (r : State × Except Unit (List EnrichedRecord)) :
    ((match r with
      | (stF, .ok ps) => (stF, Except.ok (parsed :: ps))
      | (stF, .error e) => (stF, Except.error e)) :
      State × Except Unit (List EnrichedRecord)).2.isOk = r.2.isOk := by
  rcases r with ⟨stF, res⟩
  cases res <;> rfl

theorem match_snd_ok (parsed : EnrichedRecord)
    (r : State × Except Unit (List EnrichedRecord)) (ps : List EnrichedRecord)
    (h : ((match r with
      | (stF, .ok l) => (stF, Except.ok (parsed :: l))
      | (stF, .error e) => (stF, Except.error e)) :
      State × Except Unit (List EnrichedRecord)).2 = Except.ok ps) :
    ∃ ps', r.2 = Except.ok ps' ∧ ps = parsed :: ps' := by
  rcases r with ⟨stF, res⟩
  cases res with
  | ok l =>
    refine ⟨l, rfl, ?_⟩
    injection h with h
    exact h.symm
  | error e => simp at h

theorem enrich_ok_inv (O : Oracle) (cast : RawItem) (parsed : EnrichedRecord)
    (h : enrich O cast = Except.ok parsed) :
    parsed.text = cast.text ∧ parsed.emotion = detect_emotion O cast.text := by
  cases hso : O.sentiment cast.text with
  | error e =>
    cases e
    rw [enrich_error_sentiment O cast hso] at h
    simp at h
  | ok v =>
    cases hto : O.topics cast.text with
    | error e =>
      cases e
      rw [enrich_error_topics O cast v hso hto] at h
      simp at h
    | ok tv =>
      rw [enrich_eq_ok O cast v tv hso hto] at h
      injection h with h
      subst h
      exact ⟨rfl, rfl⟩

/-- Claim C6: a failure of the emotion classifier is absorbed —
`detect_emotion` substitutes the sentinel `"unknown"`, the run still
completes whenever sentiment and topic extraction succeed, and every
record of a completed run carries exactly `detect_emotion` of its text;
whereas a sentiment failure, or a topics failure after a successful
sentiment call, propagates: `parse_casts` halts at the offending item
with the accumulator state unchanged from that item onward. -/
theorem claim_C6_emotion_fallback :
    (∀ (O : Oracle) (x : List Char) (err : Unit),
        O.classifierRun x = Except.error err → detect_emotion O x = unknownT)
    ∧ (∀ (O : Oracle) (items : List RawItem) (st : State),
        (∀ x, (O.sentiment x).isOk = true) → (∀ x, (O.topics x).isOk = true) →
        (parse_casts O items st).2.isOk = true)
    ∧ (∀ (O : Oracle) (items : List RawItem) (st : State)
         (ps : List EnrichedRecord),
        (parse_casts O items st).2 = Except.ok ps →
        ∀ p ∈ ps, p.emotion = detect_emotion O p.text)
    ∧ (∀ (O : Oracle) (cast : RawItem) (rest : List RawItem) (st : State),
        O.sentiment cast.text = Except.error () →
        parse_casts O (cast :: rest) st = (st, Except.error ()))
    ∧ (∀ (O : Oracle) (cast : RawItem) (rest : List RawItem) (st : State)
         (v : List Char),
        O.sentiment cast.text = Except.ok v →
        O.topics cast.text = Except.error () →
        parse_casts O (cast :: rest) st = (st, Except.error ())) := by
  refine ⟨?_, ?_, ?_, ?_, ?_⟩
  · intro O x err h
    simp [detect_emotion, h]
  · intro O items st hs ht
    induction items generalizing st with
    | nil => rfl
    | cons c cs ih =>
      have hsc := hs c.text
      have htc := ht c.text
      cases hso : O.sentiment c.text with
      | error e => rw [hso] at hsc; simp [Except.isOk, Except.toBool] at hsc
      | ok v =>
        cases hto : O.topics c.text with
        | error e => rw [hto] at htc; simp [Except.isOk, Except.toBool] at htc
        | ok tv =>
          rw [parse_casts_cons_ok O c cs st _ (enrich_eq_ok O c v tv hso hto),
            match_snd_isOk]
          exact ih _
  · intro O items
    induction items with
    | nil =>
      intro st ps hps p hp
      simp [parse_casts] at hps
      subst hps
      simp at hp
    | cons c cs ih =>
      intro st ps hps p hp
      cases he : enrich O c with
      | error e =>
        cases e
        rw [parse_casts_error_head O c cs st he] at hps
        simp at hps
      | ok parsed =>
        rw [parse_casts_cons_ok O c cs st parsed he] at hps
        obtain ⟨ps', hps', rfl⟩ := match_snd_ok parsed _ ps hps
        rcases List.mem_cons.mp hp with rfl | hp'
        · obtain ⟨htxt, hemo⟩ := enrich_ok_inv O c p he
          rw [hemo, htxt]
        · exact ih (pipelineStep parsed st) ps' hps' p hp'
  · intro O cast rest st h
    exact parse_casts_error_head O cast rest st (enrich_error_sentiment O cast h)
  · intro O cast rest st v hs h
    exact parse_casts_error_head O cast rest st (enrich_error_topics O cast v hs h)

/-- An oracle whose emotion classifier always raises but whose
sentiment and topic calls always succeed. -/
def oracleEmoFail : Oracle :=
  { sentiment := fun _ => Except.ok "neutral".toList
    classifierRun := fun _ => Except.error ()
    topics := fun _ => Except.ok [] }

/-- An oracle whose sentiment call always raises. -/
def oracleSentFail : Oracle :=
  { sentiment := fun _ => Except.error ()
    classifierRun := fun _ => Except.ok "joy".toList
    topics := fun _ => Except.ok [] }

/-- An oracle whose topic extraction always raises. -/
def oracleTopicFail : Oracle :=
  { sentiment := fun _ => Except.ok "neutral".toList
    classifierRun := fun _ => Except.ok "joy".toList
    topics := fun _ => Except.error () }

/-- `itemA` as parsed under `oracleEmoFail`: emotion is the sentinel. -/
def castAEmo : EnrichedRecord :=
  { id := 1, author := aliceA, text := "hello world".toList,
    timestamp := 100, engagement := engA,
    sentiment := "neutral".toList, emotion := unknownT, topics := [],
    embeds := [] }

theorem claim_C6_emotion_fallback_witness :
    detect_emotion oracleEmoFail "hello world".toList = unknownT
    ∧ (parse_casts oracleEmoFail [itemA, itemB] initState).2.isOk = true
    ∧ castAEmo.emotion = detect_emotion oracleEmoFail castAEmo.text
    ∧ parse_casts oracleSentFail [itemA] initState = (initState, Except.error ())
    ∧ parse_casts oracleTopicFail [itemA] initState
        = (initState, Except.error ()) :=
  ⟨claim_C6_emotion_fallback.1 oracleEmoFail "hello world".toList () rfl,
   claim_C6_emotion_fallback.2.1 oracleEmoFail [itemA, itemB] initState
     (fun _ => rfl) (fun _ => rfl),
   claim_C6_emotion_fallback.2.2.1 oracleEmoFail [itemA] initState [castAEmo]
     rfl castAEmo (List.mem_singleton.mpr rfl),
   claim_C6_emotion_fallback.2.2.2.1 oracleSentFail itemA [] initState rfl,
   claim_C6_emotion_fallback.2.2.2.2 oracleTopicFail itemA [] initState
     "neutral".toList rfl rfl⟩

theorem claim_C9_not_idempotent_witness :
    ((save_to_user_database castA (save_to_user_database castA initState)).user_database
        castA.author.username
      = ((save_to_user_database castA initState).user_database
          castA.author.username).map (fun p => appendMsg p castA.text))
    ∧ save_to_user_database castA (save_to_user_database castA initState)
        ≠ save_to_user_database castA initState
    ∧ (save_to_user_database castA (save_to_user_database castA initState)).user_database
        castA.author.username
      = some { fid := castA.id, name := castA.author.username,
               display_name := castA.author.displayName,
               msg_count := 2, messages := [castA.text, castA.text] } :=
  claim_C9_not_idempotent castA initState
